import Mathlib

/-!
Verification of `stlpb::static_vector<T, Capacity>`
(src/include/palotasb/static_vector.hpp).

The container is embedded shallowly:

* The backing storage `std::array<storage_type, Capacity> m_data` is a
  `List (Option T)` of length `Capacity`.  A slot holding `some x` models a
  slot in which an element with value `x` has been constructed and not yet
  destroyed (a "live" slot); `none` models an uninitialized or destroyed slot.
  Placement-`new` into a slot and assignment to a slot both store `some x`;
  an explicit destructor call stores `none`.  (Assigning through a raw slot is
  modeled as storing the value, which is what the compiled code does for the
  element types the tests use; the model is deliberately lenient to the code
  on this point.)
* `m_size` is a `Nat`; the C++ member has type `std::size_t`, so every
  arithmetic step the source performs on it is taken modulo `USIZE = 2 ^ 64`.
* A mutating member function on `v` becomes a function returning the new
  container state together with an `Except Err _` for the value the C++
  function returns; a result of `.error e` corresponds to a thrown exception,
  in which case the state component is the container as the caller still
  observes it.  Every capacity/bounds check in the source precedes the first
  write, and the embedded definitions keep that shape.
* Constructors that can throw return `Except Err (static_vector T Capacity)`;
  an error means the object never came to exist.
-/

/-- Decidable equality for `Except` results, so that concrete runs of the
embedded operations can be checked by `decide`. -/
instance {ε α : Type} [DecidableEq ε] [DecidableEq α] : DecidableEq (Except ε α) := fun x y =>
  match x, y with
  | .ok a, .ok b => decidable_of_iff (a = b) (by simp)
  | .error a, .error b => decidable_of_iff (a = b) (by simp)
  | .ok _, .error _ => isFalse (by simp)
  | .error _, .ok _ => isFalse (by simp)

namespace stlpb

/-- The number of values of the C++ `size_type` (`std::size_t`, 64 bits);
arithmetic on sizes in the source wraps modulo this constant. -/
def USIZE : Nat := 2 ^ 64

/-- Error kinds the container itself can raise.  The source throws
`std::out_of_range` at every throw site; the sites checking a size or count
against the capacity (messages "size()", "count",
"std::distance(begin, end)") are `capacityExceeded`, and the index check in
`at` (message "index") is `outOfRange`. -/
inductive Err where
  | capacityExceeded
  | outOfRange
deriving DecidableEq

/-- `std::move_backward(first, first + n, first + n + shift)` over the slot
array: moves the `n` slots `[first, first + n)` up to
`[first + shift, first + n + shift)`, last slot first, exactly as the source
calls it when making room for an insertion.  Each step move-assigns one
slot's contents into the destination slot. -/
def move_backward (data : List (Option α)) (first shift : Nat) : Nat → List (Option α)
  | 0 => data
  | n + 1 =>
    move_backward (data.set (first + n + shift) (data.getD (first + n) none)) first shift n

/-- `std::move(dest + 1, dest + 1 + n, dest)` over the slot array: moves the
`n` slots `[dest + 1, dest + 1 + n)` down one slot, first slot first, exactly
as `erase` calls it to close the gap. -/
def std_move (data : List (Option α)) (dest : Nat) : Nat → List (Option α)
  | 0 => data
  | n + 1 => std_move (data.set dest (data.getD (dest + 1) none)) (dest + 1) n

/-- The fill loops of the source (`std::uninitialized_fill` in the
"N copies" constructor, the placement-`new` `std::for_each` loop in the
N-copies `insert`): construct a copy of `value` into each of the slots
`[first, first + n)`. -/
def fill_slots (data : List (Option α)) (first : Nat) (value : α) : Nat → List (Option α)
  | 0 => data
  | n + 1 => (fill_slots data first value n).set (first + n) (some value)

/-- `std::uninitialized_copy` from an external value sequence (initializer
list, iterator range): constructs the values of `xs`, in order, into the
slots starting at `first`. -/
def copy_from (data : List (Option α)) (first : Nat) : List α → List (Option α)
  | [] => data
  | x :: rest => copy_from (data.set first (some x)) (first + 1) rest

/-- `std::uninitialized_copy` from the first `n` slots of another container's
storage into the first `n` slots of `dest` (the copy/move constructor and
assignment paths).  The source array is never written, so the loop order is
not observable and the recursion copies the highest slot last. -/
def copy_slots (src : List (Option α)) (dest : List (Option α)) : Nat → List (Option α)
  | 0 => dest
  | n + 1 => (copy_slots src dest n).set n (src.getD n none)

/-- The destruction loop of `clear`: runs the destructor of the elements in
slots `[0, n)`.  (The source skips the loop for trivially destructible
types; that optimization has no observable effect in this model.) -/
def destroy_slots (data : List (Option α)) : Nat → List (Option α)
  | 0 => data
  | n + 1 => (destroy_slots data n).set n none

/-- Shallow embedding of `stlpb::static_vector<T, Capacity>`:
`m_data` is the inline storage (`Capacity` slots), `m_size` the current
occupied size. -/
structure static_vector (T : Type) (Capacity : Nat) where
  m_data : List (Option T)
  m_size : Nat
deriving DecidableEq

namespace static_vector

variable {T : Type} {Capacity : Nat}

/-- `size()`. -/
def size (v : static_vector T Capacity) : Nat := v.m_size

/-- `empty()`. -/
def empty (v : static_vector T Capacity) : Bool := v.m_size == 0

/-- `full()`: `m_size == static_capacity`. -/
def full (v : static_vector T Capacity) : Bool := v.m_size == Capacity

/-- `capacity()` (also `max_size()`): the constant `Capacity`. -/
def capacity (_ : static_vector T Capacity) : Nat := Capacity

/-- Observation used by the theorems below: the slots of the live region
`[0, m_size)` in index order (the element sequence `begin() .. end()`). -/
def elems (v : static_vector T Capacity) : List (Option T) := v.m_data.take v.m_size

/-- The container invariant stated by the specification: the storage has
exactly `Capacity` slots, `m_size ≤ Capacity`, and a slot is live exactly
when its index is below `m_size`. -/
def Inv (v : static_vector T Capacity) : Prop :=
  v.m_data.length = Capacity ∧ v.m_size ≤ Capacity ∧
  ∀ i : Nat, i < Capacity → ((v.m_data.getD i none).isSome = true ↔ i < v.m_size)

instance (v : static_vector T Capacity) : Decidable (Inv v) := by
  unfold Inv; infer_instance

/-- Default constructor: `m_size(0)`, storage value-initialized with no
constructed elements. -/
def mk_empty (T : Type) (Capacity : Nat) : static_vector T Capacity :=
  ⟨List.replicate Capacity none, 0⟩

/-- "N copies of one value" constructor: throws before constructing anything
when `count > static_capacity`, otherwise `std::uninitialized_fill`s
`count` copies of `value` into the first `count` slots. -/
def mk_fill (T : Type) (Capacity : Nat) (count : Nat) (value : T) :
    Except Err (static_vector T Capacity) :=
  if count ≤ Capacity then
    .ok ⟨fill_slots (List.replicate Capacity none) 0 value count, count⟩
  else .error .capacityExceeded

/-- "N default constructed items" constructor: same capacity check, then
placement-`new`s a default-constructed element into each of the first
`count` slots (the default value stands for `value_type()`). -/
def mk_default (T : Type) [Inhabited T] (Capacity : Nat) (count : Nat) :
    Except Err (static_vector T Capacity) :=
  if count ≤ Capacity then
    .ok ⟨fill_slots (List.replicate Capacity none) 0 (default : T) count, count⟩
  else .error .capacityExceeded

/-- Initializer-list constructor: `m_size` is the list length; the check
`m_size > static_capacity` throws before `std::uninitialized_copy` runs, so
no element is constructed on the failure path. -/
def mk_init_list (T : Type) (Capacity : Nat) (init_list : List T) :
    Except Err (static_vector T Capacity) :=
  if Capacity < init_list.length then .error .capacityExceeded
  else .ok ⟨copy_from (List.replicate Capacity none) 0 init_list, init_list.length⟩

/-- Iterator-pair constructor: `m_size = std::distance(input_begin,
input_end)` (the traversal of the range is `xs`, so the distance is its
length), checked against the capacity before `std::uninitialized_copy`. -/
def mk_iter_range (T : Type) (Capacity : Nat) (xs : List T) :
    Except Err (static_vector T Capacity) :=
  if xs.length > Capacity then .error .capacityExceeded
  else .ok ⟨copy_from (List.replicate Capacity none) 0 xs, xs.length⟩

/-- Move constructor: `m_size(other.m_size)`, then `std::uninitialized_copy`
over `std::move_iterator`s move-constructs each of `other`'s live slots into
the new storage in order.  Returns (new container, `other` afterwards):
`other` keeps its `m_size` and its slots stay constructed (their values are
moved-from, which the model keeps unchanged since no claim observes them). -/
def move_ctor (other : static_vector T Capacity) :
    static_vector T Capacity × static_vector T Capacity :=
  (⟨copy_slots other.m_data (List.replicate Capacity none) other.m_size, other.m_size⟩, other)

/-- Move assignment (for distinct objects; the `&other == this` identity
short-circuit concerns object identity, which the model does not represent):
`clear()` destroys the destination's live elements, then the source's live
slots are move-constructed into the destination in order.  Returns
(assigned-to container, `other` afterwards). -/
def move_assign (self other : static_vector T Capacity) :
    static_vector T Capacity × static_vector T Capacity :=
  (⟨copy_slots other.m_data (destroy_slots self.m_data self.m_size) other.m_size,
    other.m_size⟩, other)

/-- `at(index)`: bounds-checked element access.  The method is `const`-safe
and mutates nothing, so the state component is always `v` itself; the result
is the contents of slot `index` when `index < m_size`, and `OutOfRange`
otherwise. -/
def at_index (v : static_vector T Capacity) (index : Nat) :
    static_vector T Capacity × Except Err (Option T) :=
  if index < v.m_size then (v, .ok (v.m_data.getD index none))
  else (v, .error .outOfRange)

/-- `clear()`: destroys every live element and sets `m_size = 0`. -/
def clear (v : static_vector T Capacity) : static_vector T Capacity :=
  ⟨destroy_slots v.m_data v.m_size, 0⟩

/-- Single-value `insert(pos, value)` (the copy and move overloads have the
same shape): throws if `full()`; otherwise `std::move_backward(pos, end(),
end() + 1)` shifts the tail up one slot, the new value is
placement-constructed into slot `pos`, `m_size++`, and the cursor `pos` is
returned. -/
def insert (v : static_vector T Capacity) (pos : Nat) (value : T) :
    static_vector T Capacity × Except Err Nat :=
  if v.full then (v, .error .capacityExceeded)
  else
    (⟨(move_backward v.m_data pos 1 (v.m_size - pos)).set pos (some value),
      (v.m_size + 1) % USIZE⟩, .ok pos)

/-- `emplace(pos, args...)`: identical control flow to single-value insert;
`value` stands for the element constructed from the forwarded arguments. -/
def emplace (v : static_vector T Capacity) (pos : Nat) (value : T) :
    static_vector T Capacity × Except Err Nat :=
  if v.full then (v, .error .capacityExceeded)
  else
    (⟨(move_backward v.m_data pos 1 (v.m_size - pos)).set pos (some value),
      (v.m_size + 1) % USIZE⟩, .ok pos)

/-- `insert(pos, count, value)`: throws when `m_size + count` wraps around
(the source's `/*ovf*/` check) or exceeds the capacity; otherwise shifts the
tail up `count` slots and placement-constructs `count` copies of `value`
into slots `[pos, pos + count)`. -/
def insertN (v : static_vector T Capacity) (pos count : Nat) (value : T) :
    static_vector T Capacity × Except Err Nat :=
  if (v.m_size + count) % USIZE < v.m_size || Capacity < (v.m_size + count) % USIZE then
    (v, .error .capacityExceeded)
  else
    (⟨fill_slots (move_backward v.m_data pos count (v.m_size - pos)) pos value count,
      (v.m_size + count) % USIZE⟩, .ok pos)

/-- Range `insert(pos, insert_begin, insert_end)`: the traversal of the
input range is `xs`, so `count = std::distance(...)` is `xs.length` (the
source's `count < 0` branch cannot fire for a traversable range); the same
overflow/capacity check as the N-copies overload, then the tail is shifted
up `count` slots and the range's values are constructed into the freed
slots in order. -/
def insertRange (v : static_vector T Capacity) (pos : Nat) (xs : List T) :
    static_vector T Capacity × Except Err Nat :=
  if (v.m_size + xs.length) % USIZE < v.m_size ||
      Capacity < (v.m_size + xs.length) % USIZE then
    (v, .error .capacityExceeded)
  else
    (⟨copy_from (move_backward v.m_data pos xs.length (v.m_size - pos)) pos xs,
      (v.m_size + xs.length) % USIZE⟩, .ok pos)

/-- `push_back(value)` (copy and move overloads have the same shape): throws
if `full()`, otherwise placement-constructs the value into slot `m_size`
(`storage_end()`) and increments `m_size`. -/
def push_back (v : static_vector T Capacity) (value : T) :
    static_vector T Capacity × Except Err Unit :=
  if v.full then (v, .error .capacityExceeded)
  else (⟨v.m_data.set v.m_size (some value), (v.m_size + 1) % USIZE⟩, .ok ())

/-- `erase(pos)`: runs the destructor of the element in slot `pos`, then
`std::move(pos + 1, end(), pos)` move-assigns the following elements down
one slot (front to back), then `m_size--` (size_t decrement, so modulo
`USIZE`) and the cursor `pos` is returned.  Note that no destructor runs on
the last moved-from slot. -/
def erase (v : static_vector T Capacity) (pos : Nat) :
    static_vector T Capacity × Nat :=
  (⟨std_move (v.m_data.set pos none) pos (v.m_size - pos - 1),
    (v.m_size + (USIZE - 1)) % USIZE⟩, pos)

/-- The capacity-10 container holding `{1, 2, 3}` used by the specification's
scenarios (concrete instantiation target for the general theorems below). -/
def ex3 : static_vector Nat 10 :=
  ⟨[some 1, some 2, some 3] ++ List.replicate 7 none, 3⟩

/-- A full capacity-3 container holding `{1, 2, 3}` (concrete instantiation
target for the capacity-failure theorems below). -/
def exFull : static_vector Nat 3 :=
  ⟨[some 1, some 2, some 3], 3⟩

end static_vector

/-! ### Pointwise characterization of the storage-manipulation helpers -/

theorem set_getD_self (l : List α) (i : Nat) (d : α) : l.set i (l.getD i d) = l := by
  apply List.ext_getElem?
  intro j
  rw [List.getElem?_set]
  split
  · rename_i hij
    subst hij
    split
    · rename_i hlt
      rw [List.getD_eq_getElem?_getD, List.getElem?_eq_getElem hlt]
      rfl
    · rename_i hge
      rw [List.getElem?_eq_none (Nat.le_of_not_lt hge)]
  · rfl

theorem move_backward_length (data : List (Option α)) (first shift : Nat) :
    ∀ n, (move_backward data first shift n).length = data.length := by
  intro n
  induction n generalizing data with
  | zero => rfl
  | succ n ih => rw [move_backward, ih, List.length_set]

theorem std_move_length (data : List (Option α)) (dest : Nat) :
    ∀ n, (std_move data dest n).length = data.length := by
  intro n
  induction n generalizing data dest with
  | zero => rfl
  | succ n ih => rw [std_move, ih, List.length_set]

theorem fill_slots_length (data : List (Option α)) (first : Nat) (value : α) :
    ∀ n, (fill_slots data first value n).length = data.length := by
  intro n
  induction n with
  | zero => rfl
  | succ n ih => rw [fill_slots, List.length_set, ih]

theorem copy_from_length (data : List (Option α)) (first : Nat) (xs : List α) :
    (copy_from data first xs).length = data.length := by
  induction xs generalizing data first with
  | nil => rfl
  | cons x rest ih => rw [copy_from, ih, List.length_set]

theorem copy_slots_length (src dest : List (Option α)) :
    ∀ n, (copy_slots src dest n).length = dest.length := by
  intro n
  induction n with
  | zero => rfl
  | succ n ih => rw [copy_slots, List.length_set, ih]

theorem destroy_slots_length (data : List (Option α)) :
    ∀ n, (destroy_slots data n).length = data.length := by
  intro n
  induction n with
  | zero => rfl
  | succ n ih => rw [destroy_slots, List.length_set, ih]

/-- What `std::move_backward` leaves in each slot: the window
`[first + shift, first + n + shift)` receives the slots `[first, first + n)`
(each slot moved up by `shift`), every other slot keeps its contents.  The
slots `[first, first + shift)` in particular still hold their old (moved-from)
contents. -/
theorem move_backward_getElem? (data : List (Option α)) (first shift : Nat) :
    ∀ n, first + n + shift ≤ data.length → ∀ j,
      (move_backward data first shift n)[j]? =
        if first + shift ≤ j ∧ j < first + n + shift then data[j - shift]? else data[j]? := by
  intro n
  induction n generalizing data with
  | zero =>
    intro h j
    rw [move_backward]
    split
    · omega
    · rfl
  | succ n ih =>
    intro h j
    rw [move_backward]
    rw [ih _ (by rw [List.length_set]; omega) j]
    by_cases hw : first + shift ≤ j ∧ j < first + n + shift
    · rw [if_pos hw, if_pos (by omega)]
      exact List.getElem?_set_ne (by omega)
    · rw [if_neg hw]
      by_cases hj : j = first + n + shift
      · subst hj
        rw [if_pos (by omega)]
        rw [List.getElem?_set_self', List.getElem?_eq_getElem (by omega : first + n + shift < data.length)]
        have hlt : first + n < data.length := by omega
        rw [List.getD_eq_getElem?_getD, List.getElem?_eq_getElem hlt]
        have hidx : first + n + shift - shift = first + n := by omega
        rw [hidx, List.getElem?_eq_getElem hlt]
        rfl
      · rw [if_neg (by omega)]
        exact List.getElem?_set_ne (by omega)

/-- `std::move_backward` with a zero offset (the `count = 0` case of the
N-copies insert) moves every slot onto itself and changes nothing. -/
theorem move_backward_zero (data : List (Option α)) (first : Nat) :
    ∀ n, move_backward data first 0 n = data := by
  intro n
  induction n generalizing data with
  | zero => rfl
  | succ n ih => rw [move_backward, Nat.add_zero, set_getD_self, ih]

/-- What `std::move` (the forward move in `erase`) leaves in each slot: the
window `[dest, dest + n)` receives the slots `[dest + 1, dest + 1 + n)`
(each slot moved down by one), every other slot keeps its contents.  The
last source slot `dest + n` in particular still holds its old (moved-from)
contents. -/
theorem std_move_getElem? (data : List (Option α)) (dest : Nat) :
    ∀ n, dest + n < data.length → ∀ j,
      (std_move data dest n)[j]? =
        if dest ≤ j ∧ j < dest + n then data[j + 1]? else data[j]? := by
  intro n
  induction n generalizing data dest with
  | zero =>
    intro h j
    rw [std_move]
    split
    · omega
    · rfl
  | succ n ih =>
    intro h j
    rw [std_move]
    rw [ih _ _ (by rw [List.length_set]; omega) j]
    by_cases hw : dest + 1 ≤ j ∧ j < dest + 1 + n
    · rw [if_pos hw, if_pos (by omega)]
      exact List.getElem?_set_ne (by omega)
    · rw [if_neg hw]
      by_cases hj : j = dest
      · subst hj
        rw [if_pos (by omega)]
        rw [List.getElem?_set_self', List.getElem?_eq_getElem (by omega : j < data.length)]
        rw [List.getD_eq_getElem?_getD, List.getElem?_eq_getElem (by omega : j + 1 < data.length)]
        rfl
      · rw [if_neg (by omega)]
        exact List.getElem?_set_ne (by omega)

/-- What the fill loops leave in each slot: `some value` on the window
`[first, first + n)`, everything else untouched. -/
theorem fill_slots_getElem? (data : List (Option α)) (first : Nat) (value : α) :
    ∀ n, first + n ≤ data.length → ∀ j,
      (fill_slots data first value n)[j]? =
        if first ≤ j ∧ j < first + n then some (some value) else data[j]? := by
  intro n
  induction n with
  | zero =>
    intro h j
    rw [fill_slots]
    split
    · omega
    · rfl
  | succ n ih =>
    intro h j
    rw [fill_slots, List.getElem?_set]
    by_cases hj : first + n = j
    · subst hj
      rw [if_pos rfl, if_pos (by rw [fill_slots_length]; omega), if_pos (by omega)]
    · rw [if_neg hj, ih (by omega) j]
      by_cases hw : first ≤ j ∧ j < first + n
      · rw [if_pos hw, if_pos (by omega)]
      · rw [if_neg hw, if_neg (by omega)]

/-- What `std::uninitialized_copy` from an external value sequence leaves in
each slot: the i-th value of the sequence, constructed, in slot `first + i`,
everything else untouched. -/
theorem copy_from_getElem? (data : List (Option α)) (first : Nat) (xs : List α)
    (h : first + xs.length ≤ data.length) (j : Nat) :
    (copy_from data first xs)[j]? =
      if first ≤ j ∧ j < first + xs.length then xs[j - first]?.map some
      else data[j]? := by
  induction xs generalizing data first with
  | nil =>
    rw [copy_from]
    split
    · rename_i hc
      simp only [List.length_nil] at hc
      omega
    · rfl
  | cons x rest ih =>
    simp only [List.length_cons] at h
    rw [copy_from, ih _ _ (by rw [List.length_set]; omega)]
    by_cases hw : first + 1 ≤ j ∧ j < first + 1 + rest.length
    · rw [if_pos hw, if_pos (by simp only [List.length_cons]; omega)]
      have hsub : j - first = (j - (first + 1)) + 1 := by omega
      rw [hsub, List.getElem?_cons]
      rw [if_neg (by omega), Nat.add_sub_cancel]
    · rw [if_neg hw]
      by_cases hj : j = first
      · subst hj
        rw [if_pos (by simp only [List.length_cons]; omega)]
        rw [List.getElem?_set_self', List.getElem?_eq_getElem (by omega : j < data.length)]
        simp
      · rw [if_neg (by simp only [List.length_cons]; omega)]
        exact List.getElem?_set_ne (by omega)

/-- What `std::uninitialized_copy` between two containers' storages leaves in
each destination slot: the source slot of the same index on `[0, n)`,
everything else untouched. -/
theorem copy_slots_getElem? (src dest : List (Option α)) :
    ∀ n, n ≤ src.length → n ≤ dest.length → ∀ j,
      (copy_slots src dest n)[j]? = if j < n then src[j]? else dest[j]? := by
  intro n
  induction n with
  | zero =>
    intro h1 h2 j
    rw [copy_slots]
    split
    · omega
    · rfl
  | succ n ih =>
    intro h1 h2 j
    rw [copy_slots, List.getElem?_set]
    by_cases hj : n = j
    · subst hj
      rw [if_pos rfl, if_pos (by rw [copy_slots_length]; omega), if_pos (by omega)]
      rw [List.getD_eq_getElem?_getD, List.getElem?_eq_getElem (by omega : n < src.length)]
      rfl
    · rw [if_neg hj, ih (by omega) (by omega) j]
      by_cases hw : j < n
      · rw [if_pos hw, if_pos (by omega)]
      · rw [if_neg hw, if_neg (by omega)]

/-- What the destruction loop of `clear` leaves in each slot: destroyed
(`none`) on `[0, n)`, everything else untouched. -/
theorem destroy_slots_getElem? (data : List (Option α)) :
    ∀ n, n ≤ data.length → ∀ j,
      (destroy_slots data n)[j]? = if j < n then some none else data[j]? := by
  intro n
  induction n with
  | zero =>
    intro h j
    rw [destroy_slots]
    split
    · omega
    · rfl
  | succ n ih =>
    intro h j
    rw [destroy_slots, List.getElem?_set]
    by_cases hj : n = j
    · subst hj
      rw [if_pos rfl, if_pos (by rw [destroy_slots_length]; omega), if_pos (by omega)]
    · rw [if_neg hj, ih (by omega) j]
      by_cases hw : j < n
      · rw [if_pos hw, if_pos (by omega)]
      · rw [if_neg hw, if_neg (by omega)]

/-- The wrapping `size_t` decrement `m_size--` agrees with the truncated
subtraction `s - 1` whenever `1 ≤ s < m`. -/
theorem size_t_decrement (s m : Nat) (h1 : 1 ≤ s) (h2 : s < m) : (s + (m - 1)) % m = s - 1 := by
  have hs : s + (m - 1) = m + (s - 1) := by omega
  rw [hs, Nat.add_mod_left]
  exact Nat.mod_eq_of_lt (by omega)

/-! ### Pointwise views of the specified result sequences -/

theorem getElem_insert_shape (e : List γ) (pos : Nat) (x : γ) (hpos : pos ≤ e.length) (j : Nat) :
    (e.take pos ++ x :: e.drop pos)[j]? =
      if j < pos then e[j]? else if j = pos then some x else e[j - 1]? := by
  have hlt : (e.take pos).length = pos := by rw [List.length_take]; omega
  rw [List.getElem?_append, hlt]
  by_cases h1 : j < pos
  · rw [if_pos h1, if_pos h1, List.getElem?_take, if_pos h1]
  · rw [if_neg h1, if_neg h1, List.getElem?_cons]
    by_cases h2 : j = pos
    · rw [if_pos (by omega), if_pos h2]
    · rw [if_neg (by omega), if_neg h2, List.getElem?_drop]
      congr 1
      omega

theorem getElem_insertN_shape (e : List γ) (pos count : Nat) (x : γ) (hpos : pos ≤ e.length)
    (j : Nat) :
    (e.take pos ++ List.replicate count x ++ e.drop pos)[j]? =
      if j < pos then e[j]? else if j < pos + count then some x else e[j - count]? := by
  have hlt : (e.take pos).length = pos := by rw [List.length_take]; omega
  have hlt2 : (e.take pos ++ List.replicate count x).length = pos + count := by
    rw [List.length_append, List.length_replicate, hlt]
  rw [List.getElem?_append, hlt2]
  by_cases h1 : j < pos
  · rw [if_pos (by omega), List.getElem?_append, hlt, if_pos h1, List.getElem?_take,
      if_pos h1, if_pos h1]
  · rw [if_neg h1]
    by_cases h2 : j < pos + count
    · rw [if_pos h2, List.getElem?_append, hlt, if_neg h1, List.getElem?_replicate,
        if_pos (by omega), if_pos h2]
    · rw [if_neg h2, if_neg h2, List.getElem?_drop]
      congr 1
      omega

theorem getElem_erase_shape (e : List γ) (pos : Nat) (hpos : pos ≤ e.length) (j : Nat) :
    (e.take pos ++ e.drop (pos + 1))[j]? = if j < pos then e[j]? else e[j + 1]? := by
  have hlt : (e.take pos).length = pos := by rw [List.length_take]; omega
  rw [List.getElem?_append, hlt]
  by_cases h1 : j < pos
  · rw [if_pos h1, if_pos h1, List.getElem?_take, if_pos h1]
  · rw [if_neg h1, if_neg h1, List.getElem?_drop]
    congr 1
    omega

/-! ### Characterization of the successful runs of the mutating operations -/

namespace static_vector

variable {T : Type} {Capacity : Nat}

/-- Successful single-value insert: returns the cursor `pos`, one more
element, and the element sequence with `value` inserted at `pos`. -/
theorem insert_ok (v : static_vector T Capacity) (pos : Nat) (value : T)
    (hlen : v.m_data.length = Capacity) (hcap : Capacity < USIZE)
    (hfull : v.m_size < Capacity) (hpos : pos ≤ v.m_size) :
    (v.insert pos value).2 = .ok pos ∧
    (v.insert pos value).1.m_size = v.m_size + 1 ∧
    (v.insert pos value).1.m_data.length = Capacity ∧
    (v.insert pos value).1.elems = v.elems.take pos ++ some value :: v.elems.drop pos := by
  have hf : v.full = false := by
    simp only [full, beq_eq_false_iff_ne, ne_eq]
    omega
  have hmod : (v.m_size + 1) % USIZE = v.m_size + 1 := Nat.mod_eq_of_lt (by omega)
  simp only [insert, hf, Bool.false_eq_true, if_false]
  refine ⟨trivial, hmod, by rw [List.length_set, move_backward_length, hlen], ?_⟩
  simp only [elems, hmod]
  have he : pos ≤ (v.m_data.take v.m_size).length := by rw [List.length_take]; omega
  have hms : pos + (v.m_size - pos) + 1 ≤ v.m_data.length := by omega
  apply List.ext_getElem?
  intro j
  rw [List.getElem?_take, getElem_insert_shape _ _ _ he j]
  by_cases h1 : j < pos
  · rw [if_pos (by omega), List.getElem?_set_ne (by omega),
      move_backward_getElem? v.m_data pos 1 _ hms j, if_neg (by omega),
      if_pos h1, List.getElem?_take, if_pos (by omega)]
  · rw [if_neg h1]
    by_cases h2 : j = pos
    · subst h2
      rw [if_pos (by omega),
        List.getElem?_set_eq_of_lt _ (by rw [move_backward_length, hlen]; omega),
        if_pos rfl]
    · rw [if_neg h2]
      by_cases h3 : j < v.m_size + 1
      · rw [if_pos h3, List.getElem?_set_ne (by omega),
          move_backward_getElem? v.m_data pos 1 _ hms j, if_pos (by omega),
          List.getElem?_take, if_pos (by omega)]
      · rw [if_neg h3, List.getElem?_take, if_neg (by omega)]

/-- Successful N-copies insert: returns the cursor `pos`, `count` more
elements, and the element sequence with `count` copies of `value` inserted
at `pos`. -/
theorem insertN_ok (v : static_vector T Capacity) (pos count : Nat) (value : T)
    (hlen : v.m_data.length = Capacity) (hcap : Capacity < USIZE)
    (hpos : pos ≤ v.m_size) (hfit : v.m_size + count ≤ Capacity) :
    (v.insertN pos count value).2 = .ok pos ∧
    (v.insertN pos count value).1.m_size = v.m_size + count ∧
    (v.insertN pos count value).1.m_data.length = Capacity ∧
    (v.insertN pos count value).1.elems =
      v.elems.take pos ++ List.replicate count (some value) ++ v.elems.drop pos := by
  have hmod : (v.m_size + count) % USIZE = v.m_size + count := Nat.mod_eq_of_lt (by omega)
  have hg : ((v.m_size + count) % USIZE < v.m_size ||
      Capacity < (v.m_size + count) % USIZE) = false := by
    rw [hmod]
    simp only [Bool.or_eq_false_iff, decide_eq_false_iff_not]
    omega
  simp only [insertN, hg, Bool.false_eq_true, if_false]
  refine ⟨trivial, hmod, by rw [fill_slots_length, move_backward_length, hlen], ?_⟩
  simp only [elems, hmod]
  have he : pos ≤ (v.m_data.take v.m_size).length := by rw [List.length_take]; omega
  have hms : pos + (v.m_size - pos) + count ≤ v.m_data.length := by omega
  have hfl : pos + count ≤ (move_backward v.m_data pos count (v.m_size - pos)).length := by
    rw [move_backward_length]; omega
  apply List.ext_getElem?
  intro j
  rw [List.getElem?_take, getElem_insertN_shape _ _ _ _ he j,
    fill_slots_getElem? (move_backward v.m_data pos count (v.m_size - pos)) pos value count hfl j,
    move_backward_getElem? v.m_data pos count _ hms j]
  by_cases h1 : j < pos
  · rw [if_pos (by omega), if_neg (by omega), if_neg (by omega), if_pos h1,
      List.getElem?_take, if_pos (by omega)]
  · rw [if_neg h1]
    by_cases h2 : j < pos + count
    · rw [if_pos (by omega), if_pos (by omega), if_pos h2]
    · rw [if_neg h2]
      by_cases h3 : j < v.m_size + count
      · rw [if_pos h3, if_neg (by omega), if_pos (by omega), List.getElem?_take,
          if_pos (by omega)]
      · rw [if_neg h3, List.getElem?_take, if_neg (by omega)]

/-- `erase` at a valid position: returns the cursor `pos`, one less element,
and the element sequence with the element at `pos` removed. -/
theorem erase_ok (v : static_vector T Capacity) (pos : Nat)
    (hlen : v.m_data.length = Capacity) (hcap : Capacity < USIZE)
    (hsize : v.m_size ≤ Capacity) (hpos : pos < v.m_size) :
    (v.erase pos).2 = pos ∧
    (v.erase pos).1.m_size = v.m_size - 1 ∧
    (v.erase pos).1.m_data.length = Capacity ∧
    (v.erase pos).1.elems = v.elems.take pos ++ v.elems.drop (pos + 1) := by
  have hmod : (v.m_size + (USIZE - 1)) % USIZE = v.m_size - 1 :=
    size_t_decrement _ _ (by omega) (by omega)
  simp only [erase]
  refine ⟨trivial, hmod, by rw [std_move_length, List.length_set, hlen], ?_⟩
  simp only [elems, hmod]
  have he : pos ≤ (v.m_data.take v.m_size).length := by rw [List.length_take]; omega
  have hsm : pos + (v.m_size - pos - 1) < (v.m_data.set pos none).length := by
    rw [List.length_set]; omega
  apply List.ext_getElem?
  intro j
  rw [List.getElem?_take, getElem_erase_shape _ _ he j,
    std_move_getElem? (v.m_data.set pos none) pos _ hsm j]
  by_cases h1 : j < pos
  · rw [if_pos (by omega), if_neg (by omega), List.getElem?_set_ne (by omega), if_pos h1,
      List.getElem?_take, if_pos (by omega)]
  · rw [if_neg h1]
    by_cases h3 : j < v.m_size - 1
    · rw [if_pos h3, if_pos (by omega), List.getElem?_set_ne (by omega),
        List.getElem?_take, if_pos (by omega)]
    · rw [if_neg h3, List.getElem?_take, if_neg (by omega)]

/-- N-copies insert with `count = 0` is the identity: the overflow/capacity
guard does not fire, `std::move_backward` moves every tail slot onto itself,
the fill loop is empty, and `m_size += 0` leaves the size. -/
theorem insertN_zero (v : static_vector T Capacity) (pos : Nat) (value : T)
    (hsize : v.m_size ≤ Capacity) (hcap : Capacity < USIZE) :
    v.insertN pos 0 value = (v, .ok pos) := by
  have hmod : v.m_size % USIZE = v.m_size := Nat.mod_eq_of_lt (by omega)
  have hg : (v.m_size % USIZE < v.m_size || Capacity < v.m_size % USIZE) = false := by
    rw [hmod]
    simp only [Bool.or_eq_false_iff, decide_eq_false_iff_not]
    omega
  simp only [insertN, Nat.add_zero, hg, Bool.false_eq_true, if_false, fill_slots,
    move_backward_zero, hmod]
  rw [if_neg (by simp only [Bool.or_eq_true, decide_eq_true_eq]; omega)]

/-- Move construction reads the source's live slots in order into the new
object's storage and never writes the source: the returned source state is
the argument itself, live count included. -/
theorem move_ctor_ok (other : static_vector T Capacity)
    (hlen : other.m_data.length = Capacity) (hsize : other.m_size ≤ Capacity) :
    (move_ctor other).1.m_size = other.m_size ∧
    (move_ctor other).1.elems = other.elems ∧
    (move_ctor other).2 = other := by
  refine ⟨rfl, ?_, rfl⟩
  simp only [move_ctor, elems]
  have h1 : other.m_size ≤ other.m_data.length := by omega
  have h2 : other.m_size ≤ (List.replicate Capacity (none : Option T)).length := by
    rw [List.length_replicate]; omega
  apply List.ext_getElem?
  intro j
  rw [List.getElem?_take, List.getElem?_take,
    copy_slots_getElem? other.m_data _ other.m_size h1 h2 j]
  by_cases hj : j < other.m_size
  · rw [if_pos hj, if_pos hj, if_pos hj]
  · rw [if_neg hj, if_neg hj]

/-- Move assignment clears the destination, then reads the source's live
slots in order into the destination's storage; the source is never
written, live count included. -/
theorem move_assign_ok (self other : static_vector T Capacity)
    (hlen_s : self.m_data.length = Capacity) (hlen_o : other.m_data.length = Capacity)
    (hsize : other.m_size ≤ Capacity) :
    (move_assign self other).1.m_size = other.m_size ∧
    (move_assign self other).1.elems = other.elems ∧
    (move_assign self other).2 = other := by
  refine ⟨rfl, ?_, rfl⟩
  simp only [move_assign, elems]
  have h1 : other.m_size ≤ other.m_data.length := by omega
  have h2 : other.m_size ≤ (destroy_slots self.m_data self.m_size).length := by
    rw [destroy_slots_length, hlen_s]; omega
  apply List.ext_getElem?
  intro j
  rw [List.getElem?_take, List.getElem?_take,
    copy_slots_getElem? other.m_data _ other.m_size h1 h2 j]
  by_cases hj : j < other.m_size
  · rw [if_pos hj, if_pos hj, if_pos hj]
  · rw [if_neg hj, if_neg hj]

end static_vector

/-- The source's combined wraparound-or-exceeds check on `m_size + count`
(in `size_t` arithmetic) holds exactly when the true sum exceeds the
capacity. -/
theorem size_t_add_guard (s c cap : Nat) (hs : s ≤ cap) (hcap : cap < USIZE)
    (hc : c < USIZE) :
    ((s + c) % USIZE < s ∨ cap < (s + c) % USIZE) ↔ cap < s + c := by
  by_cases h : s + c < USIZE
  · rw [Nat.mod_eq_of_lt h]
    constructor
    · rintro (h1 | h1)
      · omega
      · exact h1
    · intro h1
      right
      exact h1
  · have hW : (s + c) % USIZE = s + c - USIZE := by
      rw [Nat.mod_eq_sub_mod (by omega)]
      exact Nat.mod_eq_of_lt (by omega)
    rw [hW]
    constructor
    · intro _
      omega
    · intro _
      left
      omega

namespace static_vector

variable {T : Type} {Capacity : Nat}

/-- Single-value insert fails exactly on a full container (the resulting
size `m_size + 1` would exceed the capacity), the thrown error is the
capacity kind, and a failing call leaves the container untouched. -/
theorem insert_fail_iff (v : static_vector T Capacity) (pos : Nat) (value : T)
    (hsize : v.m_size ≤ Capacity) :
    ((v.insert pos value).2 = .error .capacityExceeded ↔ Capacity < v.m_size + 1) ∧
    (∀ e, (v.insert pos value).2 = .error e →
      e = .capacityExceeded ∧ (v.insert pos value).1 = v) := by
  by_cases hc : v.m_size = Capacity
  · have hf : v.full = true := by simp [full, hc]
    rw [insert, hf, if_pos rfl]
    exact ⟨⟨fun _ => by omega, fun _ => rfl⟩,
      fun e he => ⟨by injection he with h; exact h.symm, rfl⟩⟩
  · have hf : v.full = false := by simp only [full, beq_eq_false_iff_ne, ne_eq]; exact hc
    rw [insert, hf, if_neg (by simp)]
    exact ⟨⟨fun h => (nomatch h), fun h => absurd h (by omega)⟩, fun e he => (nomatch he)⟩

/-- `emplace` fails exactly on a full container, with the capacity error
kind, leaving the container untouched. -/
theorem emplace_fail_iff (v : static_vector T Capacity) (pos : Nat) (value : T)
    (hsize : v.m_size ≤ Capacity) :
    ((v.emplace pos value).2 = .error .capacityExceeded ↔ Capacity < v.m_size + 1) ∧
    (∀ e, (v.emplace pos value).2 = .error e →
      e = .capacityExceeded ∧ (v.emplace pos value).1 = v) := by
  by_cases hc : v.m_size = Capacity
  · have hf : v.full = true := by simp [full, hc]
    rw [emplace, hf, if_pos rfl]
    exact ⟨⟨fun _ => by omega, fun _ => rfl⟩,
      fun e he => ⟨by injection he with h; exact h.symm, rfl⟩⟩
  · have hf : v.full = false := by simp only [full, beq_eq_false_iff_ne, ne_eq]; exact hc
    rw [emplace, hf, if_neg (by simp)]
    exact ⟨⟨fun h => (nomatch h), fun h => absurd h (by omega)⟩, fun e he => (nomatch he)⟩

/-- `push_back` fails exactly on a full container, with the capacity error
kind, leaving the container untouched. -/
theorem push_back_fail_iff (v : static_vector T Capacity) (value : T)
    (hsize : v.m_size ≤ Capacity) :
    ((v.push_back value).2 = .error .capacityExceeded ↔ Capacity < v.m_size + 1) ∧
    (∀ e, (v.push_back value).2 = .error e →
      e = .capacityExceeded ∧ (v.push_back value).1 = v) := by
  by_cases hc : v.m_size = Capacity
  · have hf : v.full = true := by simp [full, hc]
    rw [push_back, hf, if_pos rfl]
    exact ⟨⟨fun _ => by omega, fun _ => rfl⟩,
      fun e he => ⟨by injection he with h; exact h.symm, rfl⟩⟩
  · have hf : v.full = false := by simp only [full, beq_eq_false_iff_ne, ne_eq]; exact hc
    rw [push_back, hf, if_neg (by simp)]
    exact ⟨⟨fun h => (nomatch h), fun h => absurd h (by omega)⟩, fun e he => (nomatch he)⟩

/-- N-copies insert fails exactly when the true `m_size + count` exceeds the
capacity (the wraparound check subsumes `size_t` overflow), with the
capacity error kind, leaving the container untouched. -/
theorem insertN_fail_iff (v : static_vector T Capacity) (pos count : Nat) (value : T)
    (hsize : v.m_size ≤ Capacity) (hcap : Capacity < USIZE) (hcount : count < USIZE) :
    ((v.insertN pos count value).2 = .error .capacityExceeded ↔
      Capacity < v.m_size + count) ∧
    (∀ e, (v.insertN pos count value).2 = .error e →
      e = .capacityExceeded ∧ (v.insertN pos count value).1 = v) := by
  have hguard := size_t_add_guard v.m_size count Capacity hsize hcap hcount
  by_cases hc : Capacity < v.m_size + count
  · have hg : ((v.m_size + count) % USIZE < v.m_size ||
        Capacity < (v.m_size + count) % USIZE) = true := by
      simp only [Bool.or_eq_true, decide_eq_true_eq]
      exact hguard.mpr hc
    rw [insertN, hg, if_pos rfl]
    exact ⟨⟨fun _ => hc, fun _ => rfl⟩,
      fun e he => ⟨by injection he with h; exact h.symm, rfl⟩⟩
  · have hg : ((v.m_size + count) % USIZE < v.m_size ||
        Capacity < (v.m_size + count) % USIZE) = false := by
      simp only [Bool.or_eq_false_iff, decide_eq_false_iff_not]
      exact ⟨fun ha => hc (hguard.mp (Or.inl ha)), fun hb => hc (hguard.mp (Or.inr hb))⟩
    rw [insertN, hg, if_neg (by simp)]
    exact ⟨⟨fun h => (nomatch h), fun h => absurd h hc⟩, fun e he => (nomatch he)⟩

/-- Range insert fails exactly when the true `m_size + length` exceeds the
capacity, with the capacity error kind, leaving the container untouched. -/
theorem insertRange_fail_iff (v : static_vector T Capacity) (pos : Nat) (xs : List T)
    (hsize : v.m_size ≤ Capacity) (hcap : Capacity < USIZE) (hxs : xs.length < USIZE) :
    ((v.insertRange pos xs).2 = .error .capacityExceeded ↔
      Capacity < v.m_size + xs.length) ∧
    (∀ e, (v.insertRange pos xs).2 = .error e →
      e = .capacityExceeded ∧ (v.insertRange pos xs).1 = v) := by
  have hguard := size_t_add_guard v.m_size xs.length Capacity hsize hcap hxs
  by_cases hc : Capacity < v.m_size + xs.length
  · have hg : ((v.m_size + xs.length) % USIZE < v.m_size ||
        Capacity < (v.m_size + xs.length) % USIZE) = true := by
      simp only [Bool.or_eq_true, decide_eq_true_eq]
      exact hguard.mpr hc
    rw [insertRange, hg, if_pos rfl]
    exact ⟨⟨fun _ => hc, fun _ => rfl⟩,
      fun e he => ⟨by injection he with h; exact h.symm, rfl⟩⟩
  · have hg : ((v.m_size + xs.length) % USIZE < v.m_size ||
        Capacity < (v.m_size + xs.length) % USIZE) = false := by
      simp only [Bool.or_eq_false_iff, decide_eq_false_iff_not]
      exact ⟨fun ha => hc (hguard.mp (Or.inl ha)), fun hb => hc (hguard.mp (Or.inr hb))⟩
    rw [insertRange, hg, if_neg (by simp)]
    exact ⟨⟨fun h => (nomatch h), fun h => absurd h hc⟩, fun e he => (nomatch he)⟩

end static_vector

/-! ### The claims -/

namespace static_vector

variable {T : Type} {Capacity : Nat}

/-- Claim C1, evaluated on the code at a failing input.  The claimed
invariant — exactly the slots `[0, size)` are live after every public
operation — is violated by `erase`: starting from the capacity-3 container
`{1, 2, 3}` (which satisfies the invariant), `erase` at position 1 destroys
slot 1, move-assigns the later elements down, and decrements `m_size` to 2,
but never destroys the moved-from last element, so slot 2 still holds a
constructed element (`some 3`) outside the new live region `[0, 2)`. -/
theorem erase_breaks_live_region_invariant :
    Inv exFull ∧
    (exFull.erase 1).1.m_size = 2 ∧
    (exFull.erase 1).1.m_data.getD 2 none = some 3 ∧
    ¬ Inv (exFull.erase 1).1 := by decide

/-- Claim C2: on a non-full container, for every position `pos ∈ [0, size]`,
single-value insert returns a cursor at the inserted position, increases the
size by exactly one, and the live sequence becomes the old one with the new
value constructed at `pos` and every element at or after `pos` shifted one
slot toward the end. -/
theorem insert_single_spec (v : static_vector T Capacity) (pos : Nat) (value : T)
    (hlen : v.m_data.length = Capacity) (hcap : Capacity < USIZE)
    (hfull : v.m_size < Capacity) (hpos : pos ≤ v.m_size) :
    (v.insert pos value).2 = .ok pos ∧
    (v.insert pos value).1.m_size = v.m_size + 1 ∧
    (v.insert pos value).1.elems = v.elems.take pos ++ some value :: v.elems.drop pos := by
  have h := insert_ok v pos value hlen hcap hfull hpos
  exact ⟨h.1, h.2.1, h.2.2.2⟩

/-- Concrete run of `insert_single_spec`: inserting 100 at position 1 of the
capacity-10 container `{1, 2, 3}` yields `{1, 100, 2, 3}`. -/
theorem insert_single_spec_witness :
    ex3.m_data.length = 10 ∧ (10 : Nat) < USIZE ∧ ex3.m_size < 10 ∧ 1 ≤ ex3.m_size ∧
    (ex3.insert 1 100).2 = .ok 1 ∧ (ex3.insert 1 100).1.m_size = 4 ∧
    (ex3.insert 1 100).1.elems = [some 1, some 100, some 2, some 3] := by
  have h := insert_single_spec ex3 1 100 (by decide) (by decide) (by decide) (by decide)
  exact ⟨by decide, by decide, by decide, by decide, h.1, h.2.1.trans (by decide),
    h.2.2.trans (by decide)⟩

/-- Claim C3: each size-increasing mutation — single insert, N-copies
insert, range insert, emplace, push — fails exactly when the resulting size
would exceed the capacity (the source's `size_t` wraparound check covering
arithmetic overflow of the requested count), every such failure is the
`CapacityExceeded` kind, and a failing call leaves the container (sequence
and size) unchanged. -/
theorem size_increasing_mutation_capacity_failure
    (v : static_vector T Capacity) (pos count : Nat) (value : T) (xs : List T)
    (hsize : v.m_size ≤ Capacity) (hcap : Capacity < USIZE)
    (hcount : count < USIZE) (hxs : xs.length < USIZE) :
    (((v.insert pos value).2 = .error .capacityExceeded ↔ Capacity < v.m_size + 1) ∧
      (∀ e, (v.insert pos value).2 = .error e →
        e = .capacityExceeded ∧ (v.insert pos value).1 = v)) ∧
    (((v.insertN pos count value).2 = .error .capacityExceeded ↔
        Capacity < v.m_size + count) ∧
      (∀ e, (v.insertN pos count value).2 = .error e →
        e = .capacityExceeded ∧ (v.insertN pos count value).1 = v)) ∧
    (((v.insertRange pos xs).2 = .error .capacityExceeded ↔
        Capacity < v.m_size + xs.length) ∧
      (∀ e, (v.insertRange pos xs).2 = .error e →
        e = .capacityExceeded ∧ (v.insertRange pos xs).1 = v)) ∧
    (((v.emplace pos value).2 = .error .capacityExceeded ↔ Capacity < v.m_size + 1) ∧
      (∀ e, (v.emplace pos value).2 = .error e →
        e = .capacityExceeded ∧ (v.emplace pos value).1 = v)) ∧
    (((v.push_back value).2 = .error .capacityExceeded ↔ Capacity < v.m_size + 1) ∧
      (∀ e, (v.push_back value).2 = .error e →
        e = .capacityExceeded ∧ (v.push_back value).1 = v)) :=
  ⟨insert_fail_iff v pos value hsize, insertN_fail_iff v pos count value hsize hcap hcount,
    insertRange_fail_iff v pos xs hsize hcap hxs, emplace_fail_iff v pos value hsize,
    push_back_fail_iff v value hsize⟩

/-- Concrete run of `size_increasing_mutation_capacity_failure`: on the full
capacity-3 container `{1, 2, 3}`, every size-increasing mutation fails with
the capacity error and leaves the container unchanged. -/
theorem size_increasing_mutation_capacity_failure_witness :
    (exFull.insert 1 9).2 = .error .capacityExceeded ∧ (exFull.insert 1 9).1 = exFull ∧
    (exFull.insertN 1 2 9).2 = .error .capacityExceeded ∧ (exFull.insertN 1 2 9).1 = exFull ∧
    (exFull.insertRange 1 [7, 8]).2 = .error .capacityExceeded ∧
    (exFull.insertRange 1 [7, 8]).1 = exFull ∧
    (exFull.emplace 1 9).2 = .error .capacityExceeded ∧ (exFull.emplace 1 9).1 = exFull ∧
    (exFull.push_back 9).2 = .error .capacityExceeded ∧ (exFull.push_back 9).1 = exFull := by
  have h := size_increasing_mutation_capacity_failure exFull 1 2 9 [7, 8]
    (by decide) (by decide) (by decide) (by decide)
  have e1 := h.1.1.mpr (by decide)
  have e2 := h.2.1.1.mpr (by decide)
  have e3 := h.2.2.1.1.mpr (by decide)
  have e4 := h.2.2.2.1.1.mpr (by decide)
  have e5 := h.2.2.2.2.1.mpr (by decide)
  exact ⟨e1, (h.1.2 _ e1).2, e2, (h.2.1.2 _ e2).2, e3, (h.2.2.1.2 _ e3).2,
    e4, (h.2.2.2.1.2 _ e4).2, e5, (h.2.2.2.2.2 _ e5).2⟩

/-- Claim C4: when `size + count` fits in the capacity (and hence cannot
wrap), N-copies insert returns a cursor at `pos`, increases the size by
`count`, and the live sequence becomes the old one with the tail shifted
right by `count` slots and `count` copies of the value constructed into the
freed slots. -/
theorem insert_count_spec (v : static_vector T Capacity) (pos count : Nat) (value : T)
    (hlen : v.m_data.length = Capacity) (hcap : Capacity < USIZE)
    (hpos : pos ≤ v.m_size) (hfit : v.m_size + count ≤ Capacity) :
    (v.insertN pos count value).2 = .ok pos ∧
    (v.insertN pos count value).1.m_size = v.m_size + count ∧
    (v.insertN pos count value).1.elems =
      v.elems.take pos ++ List.replicate count (some value) ++ v.elems.drop pos := by
  have h := insertN_ok v pos count value hlen hcap hpos hfit
  exact ⟨h.1, h.2.1, h.2.2.2⟩

/-- Concrete run of `insert_count_spec`, the specification's scenario:
capacity 10, `{1, 2, 3}`, `insert(pos = 1, count = 2, value = 100)` yields
`{1, 100, 100, 2, 3}`. -/
theorem insert_count_spec_witness :
    (ex3.insertN 1 2 100).2 = .ok 1 ∧ (ex3.insertN 1 2 100).1.m_size = 5 ∧
    (ex3.insertN 1 2 100).1.elems = [some 1, some 100, some 100, some 2, some 3] := by
  have h := insert_count_spec ex3 1 2 100 (by decide) (by decide) (by decide) (by decide)
  exact ⟨h.1, h.2.1.trans (by decide), h.2.2.trans (by decide)⟩

/-- Claim C5: `erase` at a valid position destroys the element there, shifts
all subsequent elements one slot toward the front, decrements the size by
exactly one, and returns a cursor at the erased position. -/
theorem erase_spec (v : static_vector T Capacity) (pos : Nat)
    (hlen : v.m_data.length = Capacity) (hcap : Capacity < USIZE)
    (hsize : v.m_size ≤ Capacity) (hpos : pos < v.m_size) :
    (v.erase pos).2 = pos ∧
    (v.erase pos).1.m_size = v.m_size - 1 ∧
    (v.erase pos).1.elems = v.elems.take pos ++ v.elems.drop (pos + 1) := by
  have h := erase_ok v pos hlen hcap hsize hpos
  exact ⟨h.1, h.2.1, h.2.2.2⟩

/-- Concrete run of `erase_spec`, the specification's scenario: capacity 10,
`{1, 2, 3}`, `erase(pos = 1)` yields `{1, 3}` with size 2. -/
theorem erase_spec_witness :
    (ex3.erase 1).2 = 1 ∧ (ex3.erase 1).1.m_size = 2 ∧
    (ex3.erase 1).1.elems = [some 1, some 3] := by
  have h := erase_spec ex3 1 (by decide) (by decide) (by decide) (by decide)
  exact ⟨h.1, h.2.1.trans (by decide), h.2.2.trans (by decide)⟩

/-- Claim C6: on a non-full container, inserting a value at a valid position
`pos` and then erasing position `pos` restores the original live sequence
(and the original size). -/
theorem insert_erase_round_trip (v : static_vector T Capacity) (pos : Nat) (value : T)
    (hlen : v.m_data.length = Capacity) (hcap : Capacity < USIZE)
    (hfull : v.m_size < Capacity) (hpos : pos ≤ v.m_size) :
    ((v.insert pos value).1.erase pos).1.elems = v.elems ∧
    ((v.insert pos value).1.erase pos).1.m_size = v.m_size := by
  have hi := insert_ok v pos value hlen hcap hfull hpos
  have he := erase_ok (v.insert pos value).1 pos hi.2.2.1 hcap
    (by rw [hi.2.1]; omega) (by rw [hi.2.1]; omega)
  constructor
  · rw [he.2.2.2, hi.2.2.2]
    have hA : (v.elems.take pos).length = pos := by
      simp only [List.length_take, elems, hlen]
      omega
    rw [List.take_left' hA, ← List.drop_drop, List.drop_left' hA]
    simp only [List.drop_one, List.tail_cons]
    exact List.take_append_drop pos v.elems
  · rw [he.2.1, hi.2.1]
    omega

/-- Concrete run of `insert_erase_round_trip`: inserting 100 at position 1
of the capacity-10 container `{1, 2, 3}` and erasing position 1 again
restores `{1, 2, 3}`. -/
theorem insert_erase_round_trip_witness :
    ((ex3.insert 1 100).1.erase 1).1.elems = [some 1, some 2, some 3] ∧
    ((ex3.insert 1 100).1.erase 1).1.m_size = 3 := by
  have h := insert_erase_round_trip ex3 1 100 (by decide) (by decide) (by decide) (by decide)
  exact ⟨h.1.trans (by decide), h.2.trans (by decide)⟩

/-- Claim C7: checked element access returns the contents of the slot at the
index when `index < size`, fails with the out-of-range kind otherwise, and
leaves the container unchanged in both cases. -/
theorem at_checked_access_spec (v : static_vector T Capacity) (index : Nat) :
    (index < v.m_size → v.at_index index = (v, .ok (v.m_data.getD index none))) ∧
    (v.m_size ≤ index → v.at_index index = (v, .error .outOfRange)) ∧
    (v.at_index index).1 = v := by
  unfold at_index
  by_cases h : index < v.m_size
  · rw [if_pos h]
    exact ⟨fun _ => rfl, fun h2 => absurd h (by omega), rfl⟩
  · rw [if_neg h]
    exact ⟨fun h2 => absurd h2 h, fun _ => rfl, rfl⟩

/-- Concrete run of `at_checked_access_spec` on the capacity-10 container
`{1, 2, 3}`: index 1 returns element 2, index 5 fails with the out-of-range
kind. -/
theorem at_checked_access_spec_witness :
    ex3.at_index 1 = (ex3, .ok (some 2)) ∧ ex3.at_index 5 = (ex3, .error .outOfRange) := by
  have h1 := at_checked_access_spec ex3 1
  have h2 := at_checked_access_spec ex3 5
  exact ⟨(h1.1 (by decide)).trans (by decide), h2.2.1 (by decide)⟩

/-- Claim C8: move construction and move assignment move-construct each
source element into the destination's slots in order, and the source
container is left with its live count (and its still-constructed slots)
unchanged — the moved-from elements are not removed from the source. -/
theorem move_preserves_source_live_count (self other : static_vector T Capacity)
    (hlen_s : self.m_data.length = Capacity) (hlen_o : other.m_data.length = Capacity)
    (hsize : other.m_size ≤ Capacity) :
    (move_ctor other).1.m_size = other.m_size ∧
    (move_ctor other).1.elems = other.elems ∧
    (move_ctor other).2 = other ∧
    (move_assign self other).1.m_size = other.m_size ∧
    (move_assign self other).1.elems = other.elems ∧
    (move_assign self other).2 = other := by
  have h1 := move_ctor_ok other hlen_o hsize
  have h2 := move_assign_ok self other hlen_s hlen_o hsize
  exact ⟨h1.1, h1.2.1, h1.2.2, h2.1, h2.2.1, h2.2.2⟩

/-- Concrete run of `move_preserves_source_live_count`: moving from the full
capacity-3 container `{1, 2, 3}` (by construction and by assignment onto a
one-element container) copies the live sequence in order and leaves the
source state, size included, untouched. -/
theorem move_preserves_source_live_count_witness :
    (move_ctor exFull).1.m_size = 3 ∧
    (move_ctor exFull).1.elems = [some 1, some 2, some 3] ∧
    (move_ctor exFull).2 = exFull ∧
    (move_assign (⟨[some 9, none, none], 1⟩ : static_vector Nat 3) exFull).1.m_size = 3 ∧
    (move_assign (⟨[some 9, none, none], 1⟩ : static_vector Nat 3) exFull).1.elems
      = [some 1, some 2, some 3] ∧
    (move_assign (⟨[some 9, none, none], 1⟩ : static_vector Nat 3) exFull).2 = exFull := by
  have h := move_preserves_source_live_count
    (⟨[some 9, none, none], 1⟩ : static_vector Nat 3) exFull (by decide) (by decide) (by decide)
  exact ⟨h.1.trans (by decide), h.2.1.trans (by decide), h.2.2.1,
    h.2.2.2.1.trans (by decide), h.2.2.2.2.1.trans (by decide), h.2.2.2.2.2⟩

/-- Claim C9: every element-count-taking constructor — N copies, N
default-constructed, initializer sequence, iterator range — fails with the
capacity error when the count exceeds the capacity.  In each of the four
the check precedes the first element construction (the error result carries
no container state), so no live element is left behind. -/
theorem constructor_count_exceeding_capacity_fails {T : Type} [Inhabited T] {Capacity : Nat}
    (count : Nat) (value : T) (xs : List T)
    (hc : Capacity < count) (hxs : xs.length = count) :
    mk_fill T Capacity count value = .error .capacityExceeded ∧
    mk_default T Capacity count = .error .capacityExceeded ∧
    mk_init_list T Capacity xs = .error .capacityExceeded ∧
    mk_iter_range T Capacity xs = .error .capacityExceeded := by
  refine ⟨?_, ?_, ?_, ?_⟩
  · rw [mk_fill, if_neg (by omega)]
  · rw [mk_default, if_neg (by omega)]
  · rw [mk_init_list, if_pos (by omega)]
  · rw [mk_iter_range, if_pos (by omega)]

/-- Concrete run of `constructor_count_exceeding_capacity_fails`: requesting
3 elements from each constructor of a capacity-2 container fails with the
capacity error. -/
theorem constructor_count_exceeding_capacity_fails_witness :
    (2 : Nat) < 3 ∧ ([4, 5, 6] : List Nat).length = 3 ∧
    mk_fill Nat 2 3 7 = .error .capacityExceeded ∧
    mk_default Nat 2 3 = .error .capacityExceeded ∧
    mk_init_list Nat 2 [4, 5, 6] = .error .capacityExceeded ∧
    mk_iter_range Nat 2 [4, 5, 6] = .error .capacityExceeded := by
  have h := @constructor_count_exceeding_capacity_fails Nat _ 2 3 7 [4, 5, 6]
    (by decide) (by decide)
  exact ⟨by decide, by decide, h.1, h.2.1, h.2.2.1, h.2.2.2⟩

/-- Claim C10: N-copies insert with `count = 0` succeeds on any container —
full ones included — at any valid position, changes nothing, and returns a
cursor at `pos`. -/
theorem insert_zero_count_identity (v : static_vector T Capacity) (pos : Nat) (value : T)
    (hsize : v.m_size ≤ Capacity) (hcap : Capacity < USIZE) (hpos : pos ≤ v.m_size) :
    v.insertN pos 0 value = (v, .ok pos) :=
  insertN_zero v pos value hsize hcap

/-- Concrete run of `insert_zero_count_identity` on the full capacity-3
container `{1, 2, 3}`. -/
theorem insert_zero_count_identity_witness :
    exFull.insertN 1 0 9 = (exFull, .ok 1) :=
  insert_zero_count_identity exFull 1 9 (by decide) (by decide) (by decide)

end static_vector

end stlpb
